import Mathlib

/-
Verification of the flow-evm-gateway storage and routing core.

Shallow embedding of:
  * the Pebble-backed block index (`Blocks` in the pebble package),
  * the Pebble-backed receipt index (`Receipts` in storage/pebble/receipts.go),
  * the cross-spork request router (`CrossSporkClient`, modelled from the spec,
    since only its test file is in the sources),
  * the unsigned-transaction builder (`encodeTxFromArgs` in api/encode_transaction.go).

Modelling conventions:
  * Heights, hashes and addresses are `Nat` (Go `uint64` / 32-byte hashes used
    only as opaque keys).  The one place where 64-bit overflow matters —
    `end + 1` in `BloomsForBlockRange` — applies an explicit `% 2 ^ 64`.
  * The ordered key-value engine is modelled per key-code as a function
    `Nat → Option v`; byte-lexicographic iteration over 8-byte big-endian keys
    coincides with numeric iteration, which is how the range scan is modelled.
  * The external RLP codecs are modelled only through their round-trip
    contract (spec section 6: encodings round-trip exactly): an encoded block
    is a constructor wrapping the block, plus a `malformed` constructor so that
    decoding stays fallible.  For receipts, the one non-trivial fact about the
    codec — a log's derived cross-reference fields (owning block hash/number,
    owning tx hash/index, positional index) are NOT serialized and decode as
    zero values — is modelled by storing the receipt list with those log
    fields erased.
  * Engine faults are injected only where a claim is about failure atomicity
    (`Blocks.Store`): `fault i` says the i-th engine `set` call of that Store
    invocation fails.  Elsewhere the engine is modelled as infallible apart
    from `NotFound` on absent keys, which is the only failure the happy-path
    claims quantify over.
-/

/-- Error taxonomy of the storage layer (storage/errors and models/errors). -/
inductive Err where
  | notFound
  | notInitialized
  | engineFault
  | invalidRange (msg : String)
  | internal (msg : String)
  deriving DecidableEq, Repr

/-- An EVM block as persisted by the block index (fields of types.Block that
the index reads: its height; the rest is opaque payload). -/
structure Block where
  parentBlockHash : Nat
  height : Nat
  totalSupply : Nat
  receiptRoot : Nat
  transactionHashes : List Nat
  deriving DecidableEq, Repr

/-- Serialized block bytes, modelled through the round-trip contract of the
external codec: `wellFormed b` is the encoding of `b`; `malformed` stands for
any byte string that is not a valid encoding, so decoding stays fallible. -/
inductive BlockBytes where
  | wellFormed (b : Block)
  | malformed (raw : List Nat)
  deriving DecidableEq, Repr

/-- block.ToBytes() -/
def Block.toBytes (b : Block) : BlockBytes := .wellFormed b

/-- types.NewBlockFromBytes -/
def blockFromBytes : BlockBytes → Except Err Block
  | .wellFormed b => .ok b
  | .malformed _ => .error (.internal "failed to decode block")

/-- block.Hash(): the external hash, modelled as an injective pairing of the
block's scalar fields (used only as an opaque index key). -/
def Block.hash (b : Block) : Nat :=
  Nat.pair b.parentBlockHash (Nat.pair b.height (Nat.pair b.totalSupply b.receiptRoot))

/-- The two scalar watermark key codes (firstEVMHeightKey / latestEVMHeightKey). -/
inductive HeightKey where
  | first
  | latest
  deriving DecidableEq, Repr

/-- State of the `Blocks` index: one field per key code of the shared Pebble
store, plus the in-memory `heightCache` (a Go `map[byte]uint64`, where a
missing key reads as `0`). -/
structure Blocks where
  /-- blockHeightKey: EVM height → serialized block payload -/
  blockData : Nat → Option BlockBytes
  /-- blockIDToHeightKey: block id → EVM height -/
  idToHeight : Nat → Option Nat
  /-- evmHeightToCadenceHeightKey: EVM height → cadence (host) height -/
  evmToCadence : Nat → Option Nat
  /-- firstEVMHeightKey watermark -/
  firstHeight : Option Nat
  /-- latestEVMHeightKey watermark -/
  latestHeight : Option Nat
  /-- heightCache[firstEVMHeightKey]; 0 means absent -/
  cacheFirst : Nat
  /-- heightCache[latestEVMHeightKey]; 0 means absent -/
  cacheLatest : Nat

/-- The stored watermark selected by a key code. -/
def Blocks.storedHeight (b : Blocks) : HeightKey → Option Nat
  | .first => b.firstHeight
  | .latest => b.latestHeight

/-- The cached watermark selected by a key code. -/
def Blocks.cached (b : Blocks) : HeightKey → Nat
  | .first => b.cacheFirst
  | .latest => b.cacheLatest

/-- heightCache update. -/
def Blocks.setCache (b : Blocks) : HeightKey → Nat → Blocks
  | .first, v => { b with cacheFirst := v }
  | .latest, v => { b with cacheLatest := v }

/-- Blocks.getHeight: serve from the cache when the cached value is nonzero;
otherwise read the store (absent key → NotInitialized) and populate the cache. -/
def Blocks.getHeight (b : Blocks) (code : HeightKey) : Except Err (Nat × Blocks) :=
  if b.cached code ≠ 0 then .ok (b.cached code, b)
  else
    match b.storedHeight code with
    | none => .error .notInitialized
    | some h => .ok (h, b.setCache code h)

/-- Blocks.getBlock: raw store read followed by decoding. -/
def Blocks.getBlock (b : Blocks) (height : Nat) : Except Err Block :=
  match b.blockData height with
  | none => .error .notFound
  | some data => blockFromBytes data

/-- Blocks.GetByHeight: read both watermarks, reject heights outside
[first, latest] with NotFound, otherwise decode the stored block. -/
def Blocks.GetByHeight (b : Blocks) (height : Nat) : Except Err Block :=
  match b.getHeight .first with
  | .error e => .error e
  | .ok (first, b1) =>
    match b1.getHeight .latest with
    | .error e => .error e
    | .ok (last, b2) =>
      if height < first ∨ height > last then .error Err.notFound
      else b2.getBlock height

/-- Blocks.Store.  The source issues the three mapping writes and the
watermark write as four separate, individually committed engine `set` calls
(the body carries a `todo batch operations` comment); `fault i` injects a
failure of the i-th `set`, after which the function returns the error and the
writes already issued stay visible.  The external ToBytes/Hash error paths
return before any write and are modelled as total. -/
def Blocks.Store (fault : Nat → Bool) (b : Blocks) (cadenceHeight : Nat) (block : Block) :
    Option Err × Blocks :=
  let val := block.toBytes
  let id := block.hash
  if fault 0 then (some .engineFault, b) else
  let b1 := { b with blockData := fun k => if k = block.height then some val else b.blockData k }
  if fault 1 then (some .engineFault, b1) else
  let b2 := { b1 with idToHeight := fun k => if k = id then some block.height else b1.idToHeight k }
  if fault 2 then (some .engineFault, b2) else
  let b3 := { b2 with evmToCadence := fun k => if k = block.height then some cadenceHeight else b2.evmToCadence k }
  if fault 3 then (some .engineFault, b3) else
  (none, { b3 with latestHeight := some block.height, cacheLatest := block.height })

/-- store.get on a watermark key: absent key yields the NotFound error. -/
def watermarkGetErr : Option Nat → Option Err
  | none => some Err.notFound
  | some _ => none

/-- The guard `err != nil && !errors.Is(err, errs.NotFound)` from
Blocks.storeInitHeight: true only for a non-nil error that is not NotFound. -/
def errNotNilAndNotNotFound : Option Err → Bool
  | none => false
  | some e => if e = Err.notFound then false else true

/-- Blocks.storeInitHeight (the WithInitHeight option).  Faithful to the
source: each watermark is read, and the error branch fires only when the read
fails with an error other than NotFound — a successful read (watermark
present) falls through, after which both watermarks are overwritten.  The
cache is not touched. -/
def Blocks.storeInitHeight (b : Blocks) (height : Nat) : Except Err Blocks :=
  if errNotNilAndNotNotFound (watermarkGetErr b.firstHeight) then
    .error (.internal "existing first height can not be overwritten")
  else if errNotNilAndNotNotFound (watermarkGetErr b.latestHeight) then
    .error (.internal "existing latest height can not be overwritten")
  else
    .ok { b with firstHeight := some height, latestHeight := some height }

/-- An empty, never-bootstrapped Blocks store. -/
def emptyBlocks : Blocks :=
  { blockData := fun _ => none
    idToHeight := fun _ => none
    evmToCadence := fun _ => none
    firstHeight := none
    latestHeight := none
    cacheFirst := 0
    cacheLatest := 0 }

/-- A Blocks store whose watermarks are already initialized to 5. -/
def c3InitState : Blocks :=
  { emptyBlocks with firstHeight := some 5, latestHeight := some 5 }

/-- The block used in the C2 partial-write scenario. -/
def c2Block : Block :=
  { parentBlockHash := 1
    height := 5
    totalSupply := 0
    receiptRoot := 2
    transactionHashes := [] }

/-- C3: the claim says InitHeight fails whenever a watermark is already set and
leaves the existing values unchanged.  The code does the opposite: on a store
with first = latest = 5, storeInitHeight 7 succeeds and overwrites both
watermarks to 7, because the guard `err != nil && !errors.Is(err, NotFound)`
fires on engine faults, not on present values — contradicting the doc comment
of WithInitHeight ("if the first and last heights are already set an error
will be returned"). -/
theorem c3_initHeight_overwrites :
    Blocks.storeInitHeight c3InitState 7 =
      .ok { c3InitState with firstHeight := some 7, latestHeight := some 7 } := rfl

/-- C2: the claim says a failed Blocks.Store leaves none of the three mappings
visible.  Evaluating the code with the engine rejecting the second `set` (the
id→height write) on an empty store: Store returns an error, yet the
height→payload mapping for height 5 is visible afterwards while id→height,
EVM-height→cadence-height and the watermark are not — a proper subset of the
mapping set is observable, because the writes are separate non-batched sets. -/
theorem c2_store_partial_write_visible :
    (Blocks.Store (fun i => i == 1) emptyBlocks 9 c2Block).1 = some Err.engineFault ∧
    (Blocks.Store (fun i => i == 1) emptyBlocks 9 c2Block).2.blockData 5 = some c2Block.toBytes ∧
    (Blocks.Store (fun i => i == 1) emptyBlocks 9 c2Block).2.idToHeight c2Block.hash = none ∧
    (Blocks.Store (fun i => i == 1) emptyBlocks 9 c2Block).2.evmToCadence 5 = none ∧
    (Blocks.Store (fun i => i == 1) emptyBlocks 9 c2Block).2.latestHeight = none :=
  ⟨rfl, rfl, rfl, rfl, rfl⟩

/-- Cache consistency: whenever a cached watermark is nonzero it equals the
stored watermark.  This is the invariant of all sequential executions (the
cache is populated lazily from the store on read and updated eagerly on every
successful watermark write). -/
def Blocks.cacheConsistent (b : Blocks) : Prop :=
  (b.cacheFirst ≠ 0 → b.firstHeight = some b.cacheFirst) ∧
  (b.cacheLatest ≠ 0 → b.latestHeight = some b.cacheLatest)

theorem Blocks.setCache_blockData (b : Blocks) (c : HeightKey) (v : Nat) :
    (b.setCache c v).blockData = b.blockData := by
  cases c <;> rfl

theorem Blocks.setCache_storedHeight (b : Blocks) (c c2 : HeightKey) (v : Nat) :
    (b.setCache c v).storedHeight c2 = b.storedHeight c2 := by
  cases c <;> cases c2 <;> rfl

theorem Blocks.setCache_cached (b : Blocks) (c c2 : HeightKey) (v : Nat) :
    (b.setCache c v).cached c2 = if c2 = c then v else b.cached c2 := by
  cases c <;> cases c2 <;> rfl

/-- Behaviour of `getHeight` when the stored watermark is present and the
cache is consistent for that key: it returns the stored value, leaves the
block data and both stored watermarks unchanged, and keeps the cache of every
key consistent. -/
theorem Blocks.getHeight_spec (b : Blocks) (code : HeightKey) (v : Nat)
    (hstored : b.storedHeight code = some v)
    (hcache : ∀ c, b.cached c ≠ 0 → b.storedHeight c = some (b.cached c)) :
    ∃ b2, b.getHeight code = .ok (v, b2) ∧
      b2.blockData = b.blockData ∧
      (∀ c, b2.storedHeight c = b.storedHeight c) ∧
      (∀ c, b2.cached c ≠ 0 → b2.storedHeight c = some (b2.cached c)) := by
  by_cases h0 : b.cached code = 0
  · refine ⟨b.setCache code v, ?_, ?_, ?_, ?_⟩
    · simp only [Blocks.getHeight, h0, ne_eq, not_true_eq_false, if_false, hstored]
    · exact b.setCache_blockData code v
    · intro c; exact b.setCache_storedHeight code c v
    · intro c hc
      rw [b.setCache_storedHeight code c v]
      rw [b.setCache_cached code c v] at hc ⊢
      by_cases hcc : c = code
      · simp only [hcc, if_pos rfl]
        simpa [hcc] using hstored
      · simp only [if_neg hcc] at hc ⊢
        exact hcache c hc
  · have hv : v = b.cached code := by
      have h2 := hcache code h0
      rw [hstored] at h2
      exact Option.some_inj.mp h2
    refine ⟨b, ?_, rfl, fun c => rfl, hcache⟩
    simp only [Blocks.getHeight, ne_eq, h0, not_false_eq_true, if_true, hv]

/-- C1: for every height h, GetByHeight h succeeds iff first ≤ h ≤ latest,
where (first, latest) is the stored watermark pair; outside that range it
returns NotFound even when block bytes for h exist underneath (the witness
state stores decodable bytes at every height).  Hypotheses: both watermarks
are stored, the height cache is consistent with the store (the invariant of
sequential executions), and every height inside the watermark range carries a
decodable block (the contiguity invariant of the indexed range, spec 3). -/
theorem c1_getByHeight_watermark (b : Blocks) (f l h : Nat)
    (hc : b.cacheConsistent) (hf : b.firstHeight = some f) (hl : b.latestHeight = some l)
    (hdata : ∀ x, f ≤ x → x ≤ l → ∃ blk, b.blockData x = some (Block.toBytes blk)) :
    ((∃ blk, Blocks.GetByHeight b h = .ok blk) ↔ (f ≤ h ∧ h ≤ l)) ∧
    ((h < f ∨ h > l) → Blocks.GetByHeight b h = .error Err.notFound) := by
  have hcache : ∀ c, b.cached c ≠ 0 → b.storedHeight c = some (b.cached c) := by
    intro c
    cases c
    · exact fun hx => hc.1 hx
    · exact fun hx => hc.2 hx
  obtain ⟨b1, hget1, hbd1, hsh1, hcache1⟩ := Blocks.getHeight_spec b .first f hf hcache
  obtain ⟨b2, hget2, hbd2, _, _⟩ :=
    Blocks.getHeight_spec b1 .latest l (by rw [hsh1]; exact hl) hcache1
  have hmain : Blocks.GetByHeight b h =
      (if h < f ∨ h > l then .error Err.notFound else b2.getBlock h) := by
    simp only [Blocks.GetByHeight, hget1, hget2]
  by_cases hrange : h < f ∨ h > l
  · have hres : Blocks.GetByHeight b h = .error Err.notFound := by
      rw [hmain, if_pos hrange]
    refine ⟨⟨?_, ?_⟩, fun _ => hres⟩
    · rintro ⟨blk, hblk⟩
      rw [hres] at hblk
      exact absurd hblk (by simp)
    · intro hin
      exact absurd hrange (by omega)
  · have hin : f ≤ h ∧ h ≤ l := by omega
    obtain ⟨blk, hblk⟩ := hdata h hin.1 hin.2
    have hres : Blocks.GetByHeight b h = .ok blk := by
      rw [hmain, if_neg hrange]
      simp only [Blocks.getBlock, hbd2, hbd1, hblk]
      rfl
    exact ⟨⟨fun _ => hin, fun _ => ⟨blk, hres⟩⟩, fun hout => absurd hout hrange⟩

/-- A block whose payload records its height, for the C1 witness state. -/
def c1Block (h : Nat) : Block :=
  { parentBlockHash := 0, height := h, totalSupply := 0, receiptRoot := 0,
    transactionHashes := [] }

/-- C1 witness state: watermarks [1, 2], but decodable block bytes stored at
every height — including heights outside the watermark range. -/
def c1State : Blocks :=
  { blockData := fun h => some (Block.toBytes (c1Block h))
    idToHeight := fun _ => none
    evmToCadence := fun _ => none
    firstHeight := some 1
    latestHeight := some 2
    cacheFirst := 0
    cacheLatest := 0 }

/-- Witness for C1: on `c1State`, height 5 (outside [1, 2], bytes present
underneath) yields NotFound, while height 2 (inside) succeeds. -/
theorem c1_getByHeight_watermark_witness :
    Blocks.GetByHeight c1State 5 = .error Err.notFound ∧
    (∃ blk, Blocks.GetByHeight c1State 2 = .ok blk) := by
  have hcons : c1State.cacheConsistent :=
    ⟨fun hx => absurd rfl hx, fun hx => absurd rfl hx⟩
  have h5 := c1_getByHeight_watermark c1State 1 2 5 hcons rfl rfl
    (fun x _ _ => ⟨c1Block x, rfl⟩)
  have h2 := c1_getByHeight_watermark c1State 1 2 2 hcons rfl rfl
    (fun x _ _ => ⟨c1Block x, rfl⟩)
  exact ⟨h5.2 (by omega), (h2.1).mpr (by omega)⟩

/-- A log entry (gethTypes.Log).  `address`, `topics`, `data` are the
consensus fields that the RLP codec serializes; the remaining fields are
derived cross-references that are not persisted and decode as zero values. -/
structure Log where
  address : Nat
  topics : List Nat
  data : List Nat
  blockNumber : Nat
  txHash : Nat
  txIndex : Nat
  blockHash : Nat
  index : Nat
  deriving DecidableEq, Repr

/-- models.StorageReceipt: the fields the receipt index reads and rehydrates
from.  BlockNumber is a big.Int in the source, read through .Uint64(). -/
structure StorageReceipt where
  txHash : Nat
  blockHash : Nat
  blockNumber : Nat
  transactionIndex : Nat
  bloom : Nat
  logs : List Log
  deriving DecidableEq, Repr

/-- What the RLP round trip does to a log: the consensus fields survive, the
derived cross-reference fields come back as zero values. -/
def eraseLogRefs (l : Log) : Log :=
  { l with blockNumber := 0, txHash := 0, txIndex := 0, blockHash := 0, index := 0 }

/-- What the RLP round trip does to a receipt: receipt-level fields survive,
each log loses its derived fields. -/
def eraseReceiptLogRefs (r : StorageReceipt) : StorageReceipt :=
  { r with logs := r.logs.map eraseLogRefs }

/-- State of the `Receipts` index: one field per key code of the shared Pebble
store.  Stored values are kept in decoded form (they are only ever written by
`Receipts.Store`, whose encodings round-trip; the erasure of derived log
fields is applied at write time, where the codec drops them). -/
structure Receipts where
  /-- receiptTxIDToHeightKey: tx hash → block height -/
  txIDToHeight : Nat → Option Nat
  /-- receiptHeightKey: height → receipt list as decoded back from RLP -/
  receiptsByHeight : Nat → Option (List StorageReceipt)
  /-- bloomHeightKey: height → bloom list -/
  bloomsByHeight : Nat → Option (List Nat)
  /-- latestEVMHeightKey of the shared store (read by getLast) -/
  latest : Option Nat

/-- The per-receipt loop of Receipts.Store: carries the running height
accumulator (Go zero value 0) and the bloom list, writes one tx-id→height
entry per receipt, and rejects a receipt whose height differs from a nonzero
accumulator ("extra safety check" in the source). -/
def Receipts.storeLoop (s : Receipts) (height : Nat) (blooms : List Nat) :
    List StorageReceipt → Except Err (Receipts × Nat × List Nat)
  | [] => .ok (s, height, blooms)
  | r :: rest =>
    if height ≠ 0 ∧ r.blockNumber ≠ height then
      .error (.internal "cannot store receipts for multiple heights")
    else
      Receipts.storeLoop
        { s with txIDToHeight :=
            fun k => if k = r.txHash then some r.blockNumber else s.txIDToHeight k }
        r.blockNumber (blooms ++ [r.bloom]) rest

/-- Receipts.Store: run the per-receipt loop, then write the encoded receipt
list and the encoded bloom list, both keyed by the final height accumulator.
All writes go through one shared batch, so an erroring call leaves the store
unchanged (the batch is never committed); success applies them all. -/
def Receipts.Store (s : Receipts) (receipts : List StorageReceipt) : Except Err Receipts :=
  match Receipts.storeLoop s 0 [] receipts with
  | .error e => .error e
  | .ok (s1, height, blooms) =>
    let s2 := { s1 with receiptsByHeight :=
        fun k => if k = height then some (receipts.map eraseReceiptLogRefs)
                 else s1.receiptsByHeight k }
    .ok { s2 with bloomsByHeight :=
        fun k => if k = height then some blooms else s2.bloomsByHeight k }

/-- The post-decode rehydration loop of Receipts.getByBlockHeight: every log
gets its derived fields repopulated from the owning receipt and its position. -/
def rehydrateReceipt (r : StorageReceipt) : StorageReceipt :=
  { r with logs := r.logs.enum.map fun p =>
      { p.2 with
          blockHash := r.blockHash
          blockNumber := r.blockNumber
          txHash := r.txHash
          txIndex := r.transactionIndex
          index := p.1 } }

/-- Receipts.GetByBlockHeight (through getByBlockHeight with a nil batch):
read the receipt list stored at the height and rehydrate the log fields. -/
def Receipts.GetByBlockHeight (s : Receipts) (height : Nat) :
    Except Err (List StorageReceipt) :=
  match s.receiptsByHeight height with
  | none => .error Err.notFound
  | some receipts => .ok (receipts.map rehydrateReceipt)

/-- One element of the BloomsForBlockRange result. -/
structure BloomsHeight where
  blooms : List Nat
  height : Nat
  deriving DecidableEq, Repr

/-- The iterator scan over the bloom index with byte bounds [lo, hi): visits
exactly the stored heights in that interval in ascending (byte = numeric)
order and decodes each bloom list. -/
def Receipts.scanBlooms (s : Receipts) (lo hi : Nat) : List BloomsHeight :=
  (List.range' lo (hi - lo)).filterMap fun h =>
    (s.bloomsByHeight h).map fun bl => { blooms := bl, height := h }

/-- Receipts.BloomsForBlockRange: validate start ≤ end and both bounds
against the latest watermark (read directly from the store by getLast), then
scan the bloom index with bounds [start, end+1) — the exclusive upper bound
is the uint64 increment of end, hence the explicit wrap modulo 2^64. -/
def Receipts.BloomsForBlockRange (s : Receipts) (start finish : Nat) :
    Except Err (List BloomsHeight) :=
  if start > finish then
    .error (.invalidRange "start value is bigger than end value")
  else
    match s.latest with
    | none => .error (.internal "failed getting latest EVM height")
    | some last =>
      if start > last then
        .error (.invalidRange "start value is not within the indexed range")
      else if finish > last then
        .error (.invalidRange "end value is not within the indexed range")
      else
        let endInclusive := (finish + 1) % 2 ^ 64
        .ok (Receipts.scanBlooms s start endInclusive)

/-- An empty Receipts store. -/
def emptyReceipts : Receipts :=
  { txIDToHeight := fun _ => none
    receiptsByHeight := fun _ => none
    bloomsByHeight := fun _ => none
    latest := none }

/-- The success condition actually enforced by the Store loop: each receipt
passes unless the accumulator (the PREVIOUS receipt's height) is nonzero and
differs from the receipt's height. -/
def heightsChainOk : Nat → List StorageReceipt → Bool
  | _, [] => true
  | h0, r :: rest => (h0 == 0 || r.blockNumber == h0) && heightsChainOk r.blockNumber rest

theorem storeLoop_ok_iff (rs : List StorageReceipt) :
    ∀ (s : Receipts) (h0 : Nat) (blooms : List Nat),
      (∃ out, Receipts.storeLoop s h0 blooms rs = .ok out) ↔
        heightsChainOk h0 rs = true := by
  induction rs with
  | nil =>
    intro s h0 blooms
    simp [Receipts.storeLoop, heightsChainOk]
  | cons r rest ih =>
    intro s h0 blooms
    by_cases hc : h0 ≠ 0 ∧ r.blockNumber ≠ h0
    · constructor
      · rintro ⟨out, hout⟩
        simp [Receipts.storeLoop, if_pos hc] at hout
      · intro hchain
        exfalso
        simp only [heightsChainOk, Bool.and_eq_true, Bool.or_eq_true, beq_iff_eq] at hchain
        rcases hchain.1 with h|h
        · exact hc.1 h
        · exact hc.2 h
    · have hcond : (h0 == 0 || r.blockNumber == h0) = true := by
        rcases not_and_or.mp hc with h|h
        · simp [not_not.mp h]
        · simp [not_not.mp h]
      have hstep : Receipts.storeLoop s h0 blooms (r :: rest) =
          Receipts.storeLoop
            { s with txIDToHeight :=
                fun k => if k = r.txHash then some r.blockNumber else s.txIDToHeight k }
            r.blockNumber (blooms ++ [r.bloom]) rest := by
        simp only [Receipts.storeLoop, if_neg hc]
      rw [hstep, ih _ r.blockNumber (blooms ++ [r.bloom])]
      simp only [heightsChainOk, hcond, Bool.true_and]

theorem receipts_store_ok_iff (s : Receipts) (rs : List StorageReceipt) :
    (∃ s2, Receipts.Store s rs = .ok s2) ↔ heightsChainOk 0 rs = true := by
  rw [← storeLoop_ok_iff rs s 0 []]
  constructor
  · rintro ⟨s2, h2⟩
    unfold Receipts.Store at h2
    cases hl : Receipts.storeLoop s 0 [] rs with
    | error e => rw [hl] at h2; exact absurd h2 (by simp)
    | ok out => exact ⟨out, rfl⟩
  · rintro ⟨out, hout⟩
    obtain ⟨s1, height, blooms⟩ := out
    refine ⟨{ s1 with
        receiptsByHeight := fun k =>
          if k = height then some (rs.map eraseReceiptLogRefs) else s1.receiptsByHeight k
        bloomsByHeight := fun k =>
          if k = height then some blooms else s1.bloomsByHeight k }, ?_⟩
    unfold Receipts.Store
    rw [hout]

theorem chain_all_eq (rs : List StorageReceipt) :
    ∀ h0, h0 ≠ 0 → (∀ r ∈ rs, r.blockNumber ≠ 0) →
      (heightsChainOk h0 rs = true ↔ ∀ r ∈ rs, r.blockNumber = h0) := by
  induction rs with
  | nil =>
    intro h0 _ _
    simp [heightsChainOk]
  | cons r rest ih =>
    intro h0 h00 hnz
    have hrnz : r.blockNumber ≠ 0 := hnz r (List.mem_cons_self _ _)
    have hrest : ∀ x ∈ rest, x.blockNumber ≠ 0 :=
      fun x hx => hnz x (List.mem_cons_of_mem _ hx)
    simp only [heightsChainOk, Bool.and_eq_true, Bool.or_eq_true, beq_iff_eq]
    rw [ih r.blockNumber hrnz hrest]
    constructor
    · rintro ⟨hhead, hchain⟩ x hx
      have hbn : r.blockNumber = h0 := by
        rcases hhead with h|h
        · exact absurd h h00
        · exact h
      rcases List.mem_cons.mp hx with heq|hx2
      · rw [heq]; exact hbn
      · rw [hchain x hx2]; exact hbn
    · intro hall
      have hbn : r.blockNumber = h0 := hall r (List.mem_cons_self _ _)
      refine ⟨Or.inr hbn, fun x hx => ?_⟩
      rw [hall x (List.mem_cons_of_mem _ hx), hbn]

/-- C4 amended: restricted to receipt lists whose heights are all nonzero,
Receipts.Store passes its mixed-height check exactly when all receipts share
one height (and fails with the invalid-argument error otherwise).  The
restriction is forced: the check compares each receipt only against the
previous one and treats a zero accumulator as unset, so a list whose first
receipt has BlockNumber 0 slips through (see the counterexample). -/
theorem c4_store_mixed_heights_amended (s : Receipts) (rs : List StorageReceipt)
    (hnz : ∀ r ∈ rs, r.blockNumber ≠ 0) :
    (∃ s2, Receipts.Store s rs = .ok s2) ↔
      ∀ r ∈ rs, ∀ r2 ∈ rs, r.blockNumber = r2.blockNumber := by
  rw [receipts_store_ok_iff]
  cases rs with
  | nil => simp [heightsChainOk]
  | cons r rest =>
    have hrnz : r.blockNumber ≠ 0 := hnz r (List.mem_cons_self _ _)
    have hrest : ∀ x ∈ rest, x.blockNumber ≠ 0 :=
      fun x hx => hnz x (List.mem_cons_of_mem _ hx)
    have hhead : heightsChainOk 0 (r :: rest) = heightsChainOk r.blockNumber rest := by
      simp [heightsChainOk]
    rw [hhead, chain_all_eq rest r.blockNumber hrnz hrest]
    constructor
    · intro hall x hx y hy
      have hx2 : x.blockNumber = r.blockNumber := by
        rcases List.mem_cons.mp hx with heq|hx2
        · rw [heq]
        · exact hall x hx2
      have hy2 : y.blockNumber = r.blockNumber := by
        rcases List.mem_cons.mp hy with heq|hy2
        · rw [heq]
        · exact hall y hy2
      rw [hx2, hy2]
    · intro hpairs x hx
      exact hpairs x (List.mem_cons_of_mem _ hx) r (List.mem_cons_self _ _)

/-- Receipt at height 0 used in the C4 counterexample. -/
def c4ReceiptA : StorageReceipt :=
  { txHash := 1, blockHash := 10, blockNumber := 0, transactionIndex := 0,
    bloom := 3, logs := [] }

/-- Receipt at height 5 used in the C4 counterexample and witness. -/
def c4ReceiptB : StorageReceipt :=
  { txHash := 2, blockHash := 11, blockNumber := 5, transactionIndex := 0,
    bloom := 4, logs := [] }

/-- Second receipt at height 5 used in the C4 witness. -/
def c4ReceiptC : StorageReceipt :=
  { txHash := 3, blockHash := 12, blockNumber := 5, transactionIndex := 1,
    bloom := 6, logs := [] }

/-- C4 counterexample: a receipt list mixing heights 0 and 5 — two receipts
whose BlockNumber heights differ — is ACCEPTED by Receipts.Store, because the
check `height != 0 && h != height` treats the zero accumulator left by the
height-0 receipt as unset.  The claim says every such list must fail. -/
theorem c4_mixed_zero_height_accepted :
    c4ReceiptA.blockNumber ≠ c4ReceiptB.blockNumber ∧
    ∃ s2, Receipts.Store emptyReceipts [c4ReceiptA, c4ReceiptB] = .ok s2 := by
  exact ⟨by decide, ⟨_, rfl⟩⟩

/-- Witness for the amended C4: a two-receipt list sharing nonzero height 5 is
stored successfully. -/
theorem c4_store_mixed_heights_witness :
    ∃ s2, Receipts.Store emptyReceipts [c4ReceiptB, c4ReceiptC] = .ok s2 :=
  (c4_store_mixed_heights_amended emptyReceipts [c4ReceiptB, c4ReceiptC]
    (by decide)).mpr (by decide)

/-- C9: storing an empty receipt list succeeds, performs no per-transaction
writes (txIDToHeight is the untouched field of the input state), and writes
the encoded empty receipt list and the encoded empty bloom list, both keyed
by height 0, the zero value of the height accumulator. -/
theorem c9_store_empty_receipts (s : Receipts) :
    Receipts.Store s [] = .ok
      { s with
          receiptsByHeight := fun k => if k = 0 then some [] else s.receiptsByHeight k
          bloomsByHeight := fun k => if k = 0 then some [] else s.bloomsByHeight k } := rfl

/-- Running the Store loop over receipts that all carry height H, starting
from an accumulator that is 0 or H: it succeeds, ends with accumulator H (for
a nonempty list), appends one bloom per receipt in order, and only touches the
tx-id index. -/
theorem storeLoop_const_height (H : Nat) (rs : List StorageReceipt) :
    ∀ (s : Receipts) (h0 : Nat) (blooms : List Nat),
      (∀ r ∈ rs, r.blockNumber = H) → (h0 = 0 ∨ h0 = H) →
      ∃ s1, Receipts.storeLoop s h0 blooms rs =
          .ok (s1, (if rs = [] then h0 else H), blooms ++ rs.map StorageReceipt.bloom) ∧
        s1.receiptsByHeight = s.receiptsByHeight ∧
        s1.bloomsByHeight = s.bloomsByHeight ∧
        s1.latest = s.latest := by
  induction rs with
  | nil =>
    intro s h0 blooms _ _
    refine ⟨s, ?_, rfl, rfl, rfl⟩
    simp [Receipts.storeLoop]
  | cons r rest ih =>
    intro s h0 blooms hH h00
    have hrH : r.blockNumber = H := hH r (List.mem_cons_self _ _)
    have hcond : ¬(h0 ≠ 0 ∧ r.blockNumber ≠ h0) := by
      rcases h00 with h|h
      · intro hc; exact hc.1 h
      · intro hc; exact hc.2 (by rw [hrH, h])
    obtain ⟨s1, hrun, hr1, hb1, hl1⟩ :=
      ih { s with txIDToHeight :=
            fun k => if k = r.txHash then some r.blockNumber else s.txIDToHeight k }
        r.blockNumber (blooms ++ [r.bloom])
        (fun x hx => hH x (List.mem_cons_of_mem _ hx)) (Or.inr hrH)
    refine ⟨s1, ?_, hr1, hb1, hl1⟩
    simp only [Receipts.storeLoop, if_neg hcond]
    rw [hrun]
    simp [hrH, List.append_assoc]

/-- C7: after storing a nonempty receipt list whose receipts all carry height
H, GetByBlockHeight H returns one receipt per stored receipt in stored order
(same indices, same receipt-level fields), and every log comes back with its
derived fields rehydrated from its owning receipt: BlockHash/BlockNumber from
the receipt's block hash/number, TxHash/TxIndex from the receipt's transaction
hash/index, and the positional Index field equal to the log's position, while
the consensus fields (address, topics, data) are preserved. -/
theorem c7_rehydration (s : Receipts) (rs : List StorageReceipt) (H : Nat)
    (hne : rs ≠ []) (hH : ∀ r ∈ rs, r.blockNumber = H) :
    ∃ s2, Receipts.Store s rs = .ok s2 ∧
      ∃ out, Receipts.GetByBlockHeight s2 H = .ok out ∧
        out.length = rs.length ∧
        ∀ (i : Nat) (r : StorageReceipt), rs[i]? = some r →
          ∃ o : StorageReceipt, out[i]? = some o ∧
            o.txHash = r.txHash ∧ o.blockHash = r.blockHash ∧
            o.blockNumber = r.blockNumber ∧ o.transactionIndex = r.transactionIndex ∧
            o.bloom = r.bloom ∧ o.logs.length = r.logs.length ∧
            ∀ (j : Nat) (l : Log), r.logs[j]? = some l →
              ∃ ol : Log, o.logs[j]? = some ol ∧
                ol.address = l.address ∧ ol.topics = l.topics ∧ ol.data = l.data ∧
                ol.blockHash = r.blockHash ∧ ol.blockNumber = r.blockNumber ∧
                ol.txHash = r.txHash ∧ ol.txIndex = r.transactionIndex ∧
                ol.index = j := by
  obtain ⟨s1, hrun, hr1, hb1, _⟩ :=
    storeLoop_const_height H rs s 0 [] hH (Or.inl rfl)
  rw [if_neg hne] at hrun
  refine ⟨{ s1 with
      receiptsByHeight := fun k =>
        if k = H then some (rs.map eraseReceiptLogRefs) else s1.receiptsByHeight k
      bloomsByHeight := fun k =>
        if k = H then some ([] ++ rs.map StorageReceipt.bloom) else s1.bloomsByHeight k },
    ?_, ?_⟩
  · unfold Receipts.Store
    rw [hrun]
  · refine ⟨(rs.map eraseReceiptLogRefs).map rehydrateReceipt, ?_, by simp, ?_⟩
    · unfold Receipts.GetByBlockHeight
      simp
    · intro i r hir
      refine ⟨rehydrateReceipt (eraseReceiptLogRefs r), ?_,
        rfl, rfl, rfl, rfl, rfl, ?_, ?_⟩
      · simp [List.getElem?_map, hir]
      · simp [rehydrateReceipt, eraseReceiptLogRefs]
      · intro j l hjl
        refine ⟨{ eraseLogRefs l with
            blockHash := r.blockHash
            blockNumber := r.blockNumber
            txHash := r.txHash
            txIndex := r.transactionIndex
            index := j }, ?_, rfl, rfl, rfl, rfl, rfl, rfl, rfl, rfl⟩
        simp [rehydrateReceipt, eraseReceiptLogRefs, List.getElem?_map,
          List.getElem?_enum, hjl]

/-- First log of the C7 witness receipt; its derived fields hold junk values
that the read path must overwrite. -/
def c7Log1 : Log :=
  { address := 100, topics := [1, 2], data := [9], blockNumber := 77,
    txHash := 77, txIndex := 77, blockHash := 77, index := 77 }

/-- Second log of the C7 witness receipt. -/
def c7Log2 : Log :=
  { address := 101, topics := [3], data := [], blockNumber := 88,
    txHash := 88, txIndex := 88, blockHash := 88, index := 88 }

/-- The C7 witness receipt at height 4 with two logs. -/
def c7Receipt : StorageReceipt :=
  { txHash := 21, blockHash := 22, blockNumber := 4, transactionIndex := 0,
    bloom := 23, logs := [c7Log1, c7Log2] }

/-- Witness for C7 at the concrete one-receipt, two-log list at height 4. -/
theorem c7_rehydration_witness :
    ∃ s2, Receipts.Store emptyReceipts [c7Receipt] = .ok s2 ∧
      ∃ out, Receipts.GetByBlockHeight s2 4 = .ok out ∧
        out.length = [c7Receipt].length ∧
        ∀ (i : Nat) (r : StorageReceipt), [c7Receipt][i]? = some r →
          ∃ o : StorageReceipt, out[i]? = some o ∧
            o.txHash = r.txHash ∧ o.blockHash = r.blockHash ∧
            o.blockNumber = r.blockNumber ∧ o.transactionIndex = r.transactionIndex ∧
            o.bloom = r.bloom ∧ o.logs.length = r.logs.length ∧
            ∀ (j : Nat) (l : Log), r.logs[j]? = some l →
              ∃ ol : Log, o.logs[j]? = some ol ∧
                ol.address = l.address ∧ ol.topics = l.topics ∧ ol.data = l.data ∧
                ol.blockHash = r.blockHash ∧ ol.blockNumber = r.blockNumber ∧
                ol.txHash = r.txHash ∧ ol.txIndex = r.transactionIndex ∧
                ol.index = j :=
  c7_rehydration emptyReceipts [c7Receipt] 4 (by decide) (by decide)

theorem scanList_map_height (s : Receipts) (l : List Nat) :
    ((l.filterMap fun h => (s.bloomsByHeight h).map
        fun bl => BloomsHeight.mk bl h).map BloomsHeight.height) =
      l.filter fun h => (s.bloomsByHeight h).isSome := by
  induction l with
  | nil => rfl
  | cons h rest ih =>
    cases hb : s.bloomsByHeight h with
    | none => simp [List.filterMap_cons, List.filter_cons, hb, ih]
    | some bl => simp [List.filterMap_cons, List.filter_cons, hb, ih]

theorem scanList_mem (s : Receipts) (l : List Nat) :
    ∀ bh ∈ (l.filterMap fun h => (s.bloomsByHeight h).map
        fun bl => BloomsHeight.mk bl h),
      s.bloomsByHeight bh.height = some bh.blooms := by
  induction l with
  | nil => intro bh hbh; simp at hbh
  | cons h rest ih =>
    intro bh hbh
    cases hb : s.bloomsByHeight h with
    | none =>
      simp only [List.filterMap_cons, hb, Option.map_none'] at hbh
      exact ih bh hbh
    | some bl =>
      simp only [List.filterMap_cons, hb, Option.map_some', List.mem_cons] at hbh
      rcases hbh with heq|hbh2
      · rw [heq]
        exact hb
      · exact ih bh hbh2

/-- C5 amended: provided end < 2^64 - 1 (so that the uint64 increment
`end + 1` does not wrap), BloomsForBlockRange start end fails with a range
error when start > end or either bound exceeds the latest watermark, and for
valid bounds returns exactly one bloom list per stored height of the
inclusive range [start, end], in ascending height order (its height image is
the in-order filter of [start, end] to stored heights), each entry carrying
that height's stored bloom list.  The bound on end is forced by the
counterexample at end = 2^64 - 1. -/
theorem c5_blooms_range_amended (s : Receipts) (start finish last : Nat)
    (hlast : s.latest = some last) (hfin : finish + 1 < 2 ^ 64) :
    ((start > finish ∨ start > last ∨ finish > last) →
       ∃ m, Receipts.BloomsForBlockRange s start finish = .error (Err.invalidRange m)) ∧
    (start ≤ finish → finish ≤ last →
       ∃ out, Receipts.BloomsForBlockRange s start finish = .ok out ∧
         out.map BloomsHeight.height =
           (List.range' start (finish + 1 - start)).filter
             (fun h => (s.bloomsByHeight h).isSome) ∧
         ∀ bh ∈ out, s.bloomsByHeight bh.height = some bh.blooms) := by
  constructor
  · intro hbad
    simp only [Receipts.BloomsForBlockRange, hlast]
    by_cases h1 : start > finish
    · rw [if_pos h1]
      exact ⟨_, rfl⟩
    · rw [if_neg h1]
      by_cases h2 : start > last
      · rw [if_pos h2]
        exact ⟨_, rfl⟩
      · rw [if_neg h2]
        have h3 : finish > last := by omega
        rw [if_pos h3]
        exact ⟨_, rfl⟩
  · intro hsf hfl
    have h1 : ¬ start > finish := by omega
    have h2 : ¬ start > last := by omega
    have h3 : ¬ finish > last := by omega
    have hmod : (finish + 1) % 2 ^ 64 = finish + 1 := Nat.mod_eq_of_lt hfin
    refine ⟨Receipts.scanBlooms s start (finish + 1), ?_, ?_, ?_⟩
    · simp only [Receipts.BloomsForBlockRange, hlast, if_neg h1, if_neg h2, if_neg h3, hmod]
    · exact scanList_map_height s _
    · exact scanList_mem s _

/-- C5 witness state: latest watermark 10, bloom lists stored at heights 3
and 5 only. -/
def c5State : Receipts :=
  { txIDToHeight := fun _ => none
    receiptsByHeight := fun _ => none
    bloomsByHeight := fun h => if h = 3 then some [31] else if h = 5 then some [51] else none
    latest := some 10 }

/-- Witness for the amended C5: the valid query [2, 6] on `c5State` returns
exactly the stored heights 3 and 5 in ascending order with their bloom lists. -/
theorem c5_blooms_range_witness :
    ∃ out, Receipts.BloomsForBlockRange c5State 2 6 = .ok out ∧
      out.map BloomsHeight.height = [3, 5] ∧
      ∀ bh ∈ out, c5State.bloomsByHeight bh.height = some bh.blooms := by
  obtain ⟨_, hvalid⟩ := c5_blooms_range_amended c5State 2 6 10 rfl (by norm_num)
  obtain ⟨out, hout, hmap, hmem⟩ := hvalid (by norm_num) (by norm_num)
  refine ⟨out, hout, ?_, hmem⟩
  rw [hmap]
  decide

/-- C5 counterexample state: the latest watermark sits at the maximal uint64
height 2^64 - 1 and a bloom list is stored there. -/
def c5MaxState : Receipts :=
  { txIDToHeight := fun _ => none
    receiptsByHeight := fun _ => none
    bloomsByHeight := fun h => if h = 2 ^ 64 - 1 then some [7] else none
    latest := some (2 ^ 64 - 1) }

/-- C5 counterexample: with start = end = latest = 2^64 - 1 all validations
pass (the bounds are valid in the claim's sense) and height 2^64 - 1 has a
stored bloom list, yet the call returns the empty list instead of that one
entry: the exclusive upper bound end + 1 wraps to 0 in uint64 arithmetic, so
the iterator range [start, 0) is empty. -/
theorem c5_end_max_uint64_empty :
    c5MaxState.bloomsByHeight (2 ^ 64 - 1) = some [7] ∧
    c5MaxState.latest = some (2 ^ 64 - 1) ∧
    Receipts.BloomsForBlockRange c5MaxState (2 ^ 64 - 1) (2 ^ 64 - 1) = .ok [] :=
  ⟨rfl, rfl, rfl⟩

/-- A spork boundary: an upstream endpoint valid for heights up to and
including lastHeight (spec 3, "Spork boundary"). -/
structure Spork where
  lastHeight : Nat
  endpoint : String
  deriving DecidableEq, Repr

/-- Modelled from the spec: the CrossSporkClient implementation is not under
the sources (only its test file is).  Spec 4.4: an ascending-ordered set of
boundaries plus one distinguished current endpoint with no upper bound. -/
structure CrossSporkClient where
  currentEndpoint : String
  sporks : List Spork
  deriving DecidableEq, Repr

/-- Modelled from the spec: NewCrossSporkClient starts with the current
endpoint and no registered boundaries. -/
def NewCrossSporkClient (endpoint : String) : CrossSporkClient :=
  { currentEndpoint := endpoint, sporks := [] }

/-- Order-preserving insertion into the ascending boundary list. -/
def insertSpork : List Spork → Spork → List Spork
  | [], sp => [sp]
  | x :: xs, sp =>
    if sp.lastHeight < x.lastHeight then sp :: x :: xs else x :: insertSpork xs sp

/-- Modelled from the spec: AddSpork inserts a new boundary keeping the
ascending order and fails with a duplicate-boundary error when the lastHeight
is already registered (the test expects the message "provided last height
already exists"). -/
def CrossSporkClient.AddSpork (c : CrossSporkClient) (lastHeight : Nat) (endpoint : String) :
    Except Err CrossSporkClient :=
  if c.sporks.any fun sp => sp.lastHeight == lastHeight then
    .error (.internal "provided last height already exists")
  else
    .ok { c with sporks := insertSpork c.sporks { lastHeight := lastHeight, endpoint := endpoint } }

/-- Modelled from the spec: getClientForHeight returns the endpoint of the
first boundary (in ascending lastHeight order) whose lastHeight ≥ height, the
boundary height itself belonging to that segment; with no qualifying boundary
it returns the current endpoint. -/
def CrossSporkClient.getClientForHeight (c : CrossSporkClient) (height : Nat) : String :=
  match c.sporks.find? fun sp => decide (height ≤ sp.lastHeight) with
  | some sp => sp.endpoint
  | none => c.currentEndpoint

/-- The router state after AddSpork(100, test2.com) on a fresh client. -/
def c6Client1 : CrossSporkClient :=
  { currentEndpoint := "test1.com"
    sporks := [{ lastHeight := 100, endpoint := "test2.com" }] }

/-- The router state after the further AddSpork(200, test3.com). -/
def c6Client2 : CrossSporkClient :=
  { currentEndpoint := "test1.com"
    sporks := [{ lastHeight := 100, endpoint := "test2.com" },
               { lastHeight := 200, endpoint := "test3.com" }] }

/-- C6: the routing scenario of TestCrossSporkClient_MultiClient: with current
endpoint test1.com and boundaries (100, test2.com), (200, test3.com), height
300 routes to the current endpoint, 150 to test3.com, 50 to test2.com, and
the boundary height 200 (inclusive) to test3.com. -/
theorem c6_router_scenario :
    CrossSporkClient.AddSpork (NewCrossSporkClient "test1.com") 100 "test2.com" = .ok c6Client1 ∧
    CrossSporkClient.AddSpork c6Client1 200 "test3.com" = .ok c6Client2 ∧
    c6Client2.getClientForHeight 300 = "test1.com" ∧
    c6Client2.getClientForHeight 150 = "test3.com" ∧
    c6Client2.getClientForHeight 50 = "test2.com" ∧
    c6Client2.getClientForHeight 200 = "test3.com" :=
  ⟨rfl, rfl, rfl, rfl, rfl, rfl⟩

/-- Ascending strict order of the boundary list (spec 3: boundaries are
totally ordered with distinct lastHeight values). -/
def sporksSorted (l : List Spork) : Prop :=
  List.Pairwise (fun a b => a.lastHeight < b.lastHeight) l

theorem mem_insertSpork (sp : Spork) : ∀ (l : List Spork) (x : Spork),
    x ∈ insertSpork l sp ↔ x ∈ l ∨ x = sp := by
  intro l
  induction l with
  | nil =>
    intro x
    simp [insertSpork]
  | cons y ys ih =>
    intro x
    by_cases hc : sp.lastHeight < y.lastHeight
    · simp only [insertSpork, if_pos hc, List.mem_cons]
      tauto
    · simp only [insertSpork, if_neg hc, List.mem_cons, ih]
      tauto

theorem insertSpork_sorted (sp : Spork) : ∀ (l : List Spork),
    sporksSorted l → (∀ y ∈ l, y.lastHeight ≠ sp.lastHeight) →
    sporksSorted (insertSpork l sp) := by
  intro l
  induction l with
  | nil =>
    intro _ _
    simp [insertSpork, sporksSorted]
  | cons y ys ih =>
    intro hs hne
    rcases List.pairwise_cons.mp hs with ⟨hy, hys⟩
    by_cases hc : sp.lastHeight < y.lastHeight
    · unfold insertSpork
      rw [if_pos hc]
      refine List.pairwise_cons.mpr ⟨?_, hs⟩
      intro z hz
      rcases List.mem_cons.mp hz with heq|hz2
      · rw [heq]
        exact hc
      · exact lt_trans hc (hy z hz2)
    · have hyx : y.lastHeight < sp.lastHeight := by
        have hneq : y.lastHeight ≠ sp.lastHeight := hne y (List.mem_cons_self _ _)
        omega
      unfold insertSpork
      rw [if_neg hc]
      refine List.pairwise_cons.mpr
        ⟨?_, ih hys (fun z hz => hne z (List.mem_cons_of_mem _ hz))⟩
      intro z hz
      rcases (mem_insertSpork sp ys z).mp hz with hz2|heq
      · exact hy z hz2
      · rw [heq]
        exact hyx

/-- C8: on a client whose boundary list is ascending, AddSpork(h, e) fails
with the duplicate-boundary error whenever a boundary with lastHeight h is
already registered; otherwise it succeeds, the result remains ascending, its
boundary set is the old set plus (h, e), and the current endpoint is
untouched. -/
theorem c8_addSpork (c : CrossSporkClient) (h : Nat) (e : String)
    (hs : sporksSorted c.sporks) :
    ((∃ sp ∈ c.sporks, sp.lastHeight = h) →
       c.AddSpork h e = .error (.internal "provided last height already exists")) ∧
    ((∀ sp ∈ c.sporks, sp.lastHeight ≠ h) →
       ∃ c2, c.AddSpork h e = .ok c2 ∧
         sporksSorted c2.sporks ∧
         (∀ sp, sp ∈ c2.sporks ↔ sp ∈ c.sporks ∨ sp = { lastHeight := h, endpoint := e }) ∧
         c2.currentEndpoint = c.currentEndpoint) := by
  constructor
  · rintro ⟨sp, hsp, hh⟩
    have hany : (c.sporks.any fun x => x.lastHeight == h) = true :=
      List.any_eq_true.mpr ⟨sp, hsp, by simp [hh]⟩
    unfold CrossSporkClient.AddSpork
    rw [if_pos hany]
  · intro hnone
    have hany : ¬ (c.sporks.any fun x => x.lastHeight == h) = true := by
      rw [List.any_eq_true]
      rintro ⟨sp, hsp, hbeq⟩
      exact hnone sp hsp (by simpa using hbeq)
    refine ⟨{ c with sporks := insertSpork c.sporks { lastHeight := h, endpoint := e } },
      ?_, ?_, ?_, rfl⟩
    · unfold CrossSporkClient.AddSpork
      rw [if_neg hany]
    · exact insertSpork_sorted { lastHeight := h, endpoint := e } c.sporks hs
        (fun y hy => hnone y hy)
    · intro sp
      exact mem_insertSpork { lastHeight := h, endpoint := e } c.sporks sp

/-- The router state of TestCrossSporkClient_ExistingHeight after
AddSpork(100, host2.com). -/
def c8Client : CrossSporkClient :=
  { currentEndpoint := "host1.com"
    sporks := [{ lastHeight := 100, endpoint := "host2.com" }] }

/-- Witness for C8: re-registering lastHeight 100 fails with the
duplicate-boundary error. -/
theorem c8_addSpork_witness :
    CrossSporkClient.AddSpork c8Client 100 "host3.com" =
      .error (.internal "provided last height already exists") :=
  (c8_addSpork c8Client 100 "host3.com" (by simp [sporksSorted, c8Client])).1
    ⟨{ lastHeight := 100, endpoint := "host2.com" }, by simp [c8Client], rfl⟩

/-- The request arguments read by encodeTxFromArgs (api.TransactionArgs
pointer fields: nil is None). -/
structure TransactionArgs where
  /-- the To field (`to` is reserved in Lean) -/
  toAddr : Option Nat
  gas : Option Nat
  value : Option Nat
  data : Option (List Nat)
  input : Option (List Nat)
  deriving DecidableEq, Repr

/-- The legacy transaction payload assembled by encodeTxFromArgs
(types.LegacyTx fields it sets). -/
structure LegacyTx where
  nonce : Nat
  toAddr : Option Nat
  value : Nat
  gas : Nat
  gasPrice : Nat
  data : List Nat
  deriving DecidableEq, Repr

/-- const blockGasLimit uint64 = 15_000_000 -/
def blockGasLimit : Nat := 15000000

/-- The binary encoding of an unsigned legacy transaction, modelled through
the round-trip contract of the external tx.MarshalBinary. -/
inductive TxBytes where
  | encodedLegacy (tx : LegacyTx)
  deriving DecidableEq, Repr

/-- tx.MarshalBinary on the unsigned legacy transaction built by
encodeTxFromArgs (total in the model; its Go error path is wrapped into
ErrInvalid by the caller). -/
def marshalBinary (tx : LegacyTx) : Except Err TxBytes :=
  .ok (.encodedLegacy tx)

/-- api.encodeTxFromArgs: pick the data payload from Data, else Input, else
empty; the gas limit from Gas, else the 15,000,000 block gas limit; the value
from Value, else 0; build an unsigned LegacyTx with Nonce 0 and GasPrice 0
and marshal it. -/
def encodeTxFromArgs (args : TransactionArgs) : Except Err TxBytes :=
  let data : List Nat :=
    match args.data with
    | some d => d
    | none =>
      match args.input with
      | some i => i
      | none => []
  let gasLimit : Nat :=
    match args.gas with
    | some g => g
    | none => blockGasLimit
  let value : Nat :=
    match args.value with
    | some v => v
    | none => 0
  let tx : LegacyTx :=
    { nonce := 0, toAddr := args.toAddr, value := value, gas := gasLimit,
      gasPrice := 0, data := data }
  match marshalBinary tx with
  | .error _e => .error (.internal "invalid transaction")
  | .ok enc => .ok enc

/-- C10: for every TransactionArgs, encodeTxFromArgs returns the binary
encoding of an unsigned legacy transaction whose Nonce is 0 and GasPrice is
0, whose gas limit is args.Gas when present and 15,000,000 otherwise, whose
value is args.Value when present and 0 otherwise, and whose data payload is
args.Data when present, else args.Input when present, else empty (the To
field is passed through).  Marshalling is modelled as total, so the claim's
"when the inner marshalling succeeds" condition always holds. -/
theorem c10_encodeTxFromArgs (args : TransactionArgs) :
    ∃ tx : LegacyTx, encodeTxFromArgs args = .ok (.encodedLegacy tx) ∧
      tx.nonce = 0 ∧ tx.gasPrice = 0 ∧ tx.toAddr = args.toAddr ∧
      tx.gas = (match args.gas with | some g => g | none => 15000000) ∧
      tx.value = (match args.value with | some v => v | none => 0) ∧
      tx.data = (match args.data with
        | some d => d
        | none =>
          match args.input with
          | some i => i
          | none => []) :=
  ⟨{ nonce := 0
     toAddr := args.toAddr
     value := match args.value with | some v => v | none => 0
     gas := match args.gas with | some g => g | none => blockGasLimit
     gasPrice := 0
     data := match args.data with
       | some d => d
       | none =>
         match args.input with
         | some i => i
         | none => [] },
   rfl, rfl, rfl, rfl, rfl, rfl, rfl⟩
